import Mathlib

/-
Verification of the content/style core in library/src/text/misc.rs:
the space, line-break, strong-emphasis and emphasis element kinds, the
Delta and Toggle fold combinators, and the case-transform functions.
Machinery that lives outside this file in the original code base
(argument handling, the style cascade walker, the flow assembler) is
modelled from the specification and marked as such.
-/

/-- A case transformation on text (source: `enum Case`). -/
inductive Case where
  | lower
  | upper
  deriving DecidableEq

/-- Apply the case to a string (source: `Case::apply`, which calls
`str::to_lowercase` / `str::to_uppercase`; modelled here as a
per-character ASCII case mapping). -/
def Case.apply : Case → String → String
  | Case.lower, s => String.mk (s.data.map Char.toLower)
  | Case.upper, s => String.mk (s.data.map Char.toUpper)

/-- A delta that is summed up when folded (source: `struct Delta(i64)`). -/
structure Delta where
  val : Int
  deriving DecidableEq

/-- Source: `impl Fold for Delta`: `fold(self, outer) = outer + self.0`. -/
def Delta.fold (self : Delta) (outer : Int) : Int :=
  outer + self.val

/-- A toggle that turns on and off alternatingly if folded
(source: `struct Toggle`). -/
structure Toggle where
  deriving DecidableEq

/-- Source: `impl Fold for Toggle`: `fold(self, outer) = !outer`. -/
def Toggle.fold (_self : Toggle) (outer : Bool) : Bool :=
  !outer

/-- One style property assignment, as pushed by `Content::styled`.
The variants are the properties this file assigns: `TextNode::DELTA`
(a `Delta`), `TextNode::EMPH` (a `Toggle`), `TextNode::CASE`
(an `Option Case`), `TextNode::SMALLCAPS` (a `bool`), and the settable
`StrongNode::DELTA` property (an `i64`). -/
inductive StyleEntry where
  | delta (d : Delta)
  | emphToggle (t : Toggle)
  | caseStyle (c : Option Case)
  | smallcapsStyle (b : Bool)
  | strongDelta (d : Int)
  deriving DecidableEq

mutual

/-- The element kinds defined in this file: `SpaceNode`,
`LinebreakNode { justify: bool }`, `StrongNode(Content)`,
`EmphNode(Content)`. -/
inductive Elem where
  | space : Elem
  | linebreak : Bool → Elem
  | strong : Content → Elem
  | emph : Content → Elem

/-- A content value: one element-kind instance plus the layered style
scopes attached to it, innermost first. -/
inductive Content where
  | mk : Elem → List StyleEntry → Content

end

/-- The element instance carried by a content value. -/
def Content.elem : Content → Elem
  | Content.mk e _ => e

/-- The style scopes attached to a content value, innermost first. -/
def Content.styles : Content → List StyleEntry
  | Content.mk _ s => s

/-- Source: `Content::styled` returns a new content value with one more
style scope pushed as the new innermost scope; the input is unchanged. -/
def Content.styled : Content → StyleEntry → Content
  | Content.mk e s, entry => Content.mk e (entry :: s)

/-- The dynamic value type of the scripting layer, restricted to the
variants this file's functions inspect or produce. -/
inductive Value where
  | none
  | bool (b : Bool)
  | int (i : Int)
  | str (s : String)
  | content (c : Content)

/-- Source: `Value::type_name` for the variants modelled here. -/
def Value.typeName : Value → String
  | Value.none => "none"
  | Value.bool _ => "boolean"
  | Value.int _ => "integer"
  | Value.str _ => "string"
  | Value.content _ => "content"

/-- A constructor-argument list: positional values in order plus named
values (source: `Args`). -/
structure Args where
  positional : List Value
  named : List (String × Value)

/-- Modelled from the spec: `Args::named` looks up a named argument by
name, `none` when absent. -/
def Args.findNamed (args : Args) (name : String) : Option Value :=
  (args.named.find? (fun p => p.fst == name)).map Prod.snd

/-- Modelled from the spec: `Args::expect` takes the first positional
argument and coerces it to the target type (here content), failing with
an argument-missing error that names the parameter when no positional
argument is left, and with a type-mismatch error otherwise. -/
def Args.expectContent (args : Args) (what : String) : Except String Content :=
  match args.positional with
  | [] => Except.error ("missing argument: " ++ what)
  | v :: _ =>
    match v with
    | Value.content c => Except.ok c
    | v => Except.error ("expected content, found " ++ v.typeName)

/-- Source: `SpaceNode::construct` ignores every argument and returns
`Ok(Self.pack())`. -/
def SpaceNode.construct (_args : Args) : Except String Content :=
  Except.ok (Content.mk Elem.space [])

/-- Source: `LinebreakNode::construct`:
`let justify = args.named("justify")?.unwrap_or(false)`. -/
def LinebreakNode.construct (args : Args) : Except String Content :=
  match args.findNamed "justify" with
  | Option.none => Except.ok (Content.mk (Elem.linebreak false) [])
  | Option.some (Value.bool b) => Except.ok (Content.mk (Elem.linebreak b) [])
  | Option.some v => Except.error ("expected boolean, found " ++ v.typeName)

/-- Source: `StrongNode::construct`: `Ok(Self(args.expect("body")?).pack())`. -/
def StrongNode.construct (args : Args) : Except String Content :=
  match Args.expectContent args "body" with
  | Except.ok body => Except.ok (Content.mk (Elem.strong body) [])
  | Except.error e => Except.error e

/-- Source: `EmphNode::construct`: `Ok(Self(args.expect("body")?).pack())`. -/
def EmphNode.construct (args : Args) : Except String Content :=
  match Args.expectContent args "body" with
  | Except.ok body => Except.ok (Content.mk (Elem.emph body) [])
  | Except.error e => Except.error e

/-- Per-kind field lookup (source: the `field` methods; `SpaceNode`
declares none, so every name misses on it). -/
def Elem.field : Elem → String → Option Value
  | Elem.space, _ => Option.none
  | Elem.linebreak j, name =>
    if name = "justify" then Option.some (Value.bool j) else Option.none
  | Elem.strong body, name =>
    if name = "body" then Option.some (Value.content body) else Option.none
  | Elem.emph body, name =>
    if name = "body" then Option.some (Value.content body) else Option.none

/-- Field access on a content value: read-only introspection of the
wrapped element instance. -/
def Content.field (c : Content) (name : String) : Option Value :=
  Elem.field c.elem name

/-- The flow classification tag (spec §3: closed tag set; the variants
exercised by the elements of this file are weak-with-priority and
destructive). -/
inductive Behaviour where
  | weak (priority : Nat)
  | destructive
  deriving DecidableEq

/-- Source: `impl Behave for SpaceNode` returns `Behaviour::Weak(2)`. -/
def SpaceNode.behaviour : Behaviour :=
  Behaviour.weak 2

/-- Source: `impl Behave for LinebreakNode` returns
`Behaviour::Destructive` regardless of the `justify` flag. -/
def LinebreakNode.behaviour (_justify : Bool) : Behaviour :=
  Behaviour.destructive

/-- Capability dispatch for the flow-behavior capability: only
`SpaceNode` and `LinebreakNode` implement `Behave`. -/
def Elem.behaviourOf : Elem → Option Behaviour
  | Elem.space => Option.some SpaceNode.behaviour
  | Elem.linebreak j => Option.some (LinebreakNode.behaviour j)
  | Elem.strong _ => Option.none
  | Elem.emph _ => Option.none

/-- Whether an element classifies as destructive. -/
def isDestructive (e : Elem) : Bool :=
  match Elem.behaviourOf e with
  | Option.some Behaviour.destructive => true
  | _ => false

/-- Modelled from the spec: `Resolve` for a fold-discipline property over
a chain of assignments listed innermost first, starting from a base
value: the innermost assignment is combined with the recursively
resolved outer accumulation via `fold(self, outer)`. -/
def resolveDeltaFrom (base : Int) : List Delta → Int
  | [] => base
  | d :: outerChain => Delta.fold d (resolveDeltaFrom base outerChain)

/-- Resolution of the font-weight delta property from its declared base
default 0 (spec §4.3 edge case). -/
def resolveDelta : List Delta → Int :=
  resolveDeltaFrom 0

/-- Modelled from the spec: `Resolve` for the toggle property over a
chain of assignments listed innermost first, starting from a base value. -/
def resolveToggleFrom (base : Bool) : List Toggle → Bool
  | [] => base
  | t :: outerChain => Toggle.fold t (resolveToggleFrom base outerChain)

/-- Source: `StrongNode::DELTA`, the settable delta property with
declared default 300. -/
def StrongNode.DELTA : Int := 300

/-- Modelled from the spec: override-discipline resolution of the
`StrongNode::DELTA` setting over a style chain listed innermost first:
the innermost assigning scope wins, the declared default otherwise. -/
def getStrongDelta : List StyleEntry → Int
  | [] => StrongNode.DELTA
  | StyleEntry.strongDelta d :: _ => d
  | _ :: rest => getStrongDelta rest

/-- Source: `impl Show for StrongNode`: the node rewrites to
`self.0.styled(TextNode::DELTA, Delta(styles.get(Self::DELTA)))`,
its body with one added scope folding in the effective strong delta. -/
def showStrong (body : Content) (styles : List StyleEntry) : Content :=
  Content.styled body (StyleEntry.delta (Delta.mk (getStrongDelta styles)))

/-- Source: `impl Show for EmphNode`: the node rewrites to
`self.0.styled(TextNode::EMPH, Toggle)`. -/
def showEmph (body : Content) : Content :=
  Content.styled body (StyleEntry.emphToggle Toggle.mk)

mutual

/-- Nesting depth of an element, used as a termination measure. -/
def Elem.size : Elem → Nat
  | Elem.space => 1
  | Elem.linebreak _ => 1
  | Elem.strong b => Content.size b + 1
  | Elem.emph b => Content.size b + 1

/-- Nesting depth of a content value. -/
def Content.size : Content → Nat
  | Content.mk e _ => Elem.size e + 1

end

/-- Modelled from the spec: the external renderer applies the
render-transform capability fixpoint-style; this function computes the
effective style chain (innermost first) reaching the innermost leaf of
a content value rendered under an outer chain. -/
def chainAtLeaf (c : Content) (outer : List StyleEntry) : List StyleEntry :=
  match c with
  | Content.mk (Elem.strong body) styles =>
    chainAtLeaf (showStrong body (styles ++ outer)) (styles ++ outer)
  | Content.mk (Elem.emph body) styles =>
    chainAtLeaf (showEmph body) (styles ++ outer)
  | Content.mk _ styles => styles ++ outer
termination_by Content.size c
decreasing_by
  all_goals cases body
  all_goals simp [showStrong, showEmph, Content.styled, Content.size, Elem.size]

/-- The font-weight delta assignments present in a style chain,
innermost first. -/
def deltasOf : List StyleEntry → List Delta
  | [] => []
  | StyleEntry.delta d :: rest => d :: deltasOf rest
  | _ :: rest => deltasOf rest

/-- Source: the `case` function, renamed because `case` is reserved in
Lean: a string argument has the case applied; a content argument is
wrapped via `styled(TextNode::CASE, Some(case))`; any other value fails
with a type-mismatch error naming the expected and found types. -/
def caseFn (c : Case) (v : Value) : Except String Value :=
  match v with
  | Value.str s => Except.ok (Value.str (Case.apply c s))
  | Value.content ct =>
    Except.ok (Value.content (Content.styled ct (StyleEntry.caseStyle (Option.some c))))
  | v => Except.error ("expected string or content, found " ++ v.typeName)

/-- Source: `lower` delegates to `case(Case::Lower, args)`. -/
def lower (v : Value) : Except String Value :=
  caseFn Case.lower v

/-- Source: `upper` delegates to `case(Case::Upper, args)`. -/
def upper (v : Value) : Except String Value :=
  caseFn Case.upper v

/-- Modelled from the spec: the flow assembler cuts a run into lines at
destructive elements; each destructive element ends the line before it,
so destructive elements are never collapsed against each other. The
result always has one line more than the run has destructive elements. -/
def splitRun : List Elem → List (List Elem)
  | [] => [[]]
  | e :: rest =>
    if isDestructive e then [] :: splitRun rest
    else
      match splitRun rest with
      | [] => [[e]]
      | l :: ls => (e :: l) :: ls

/-- Modelled from the spec: a single destructive element at the very end
of a flowing run is absorbed: the empty final line it opened is dropped;
any earlier trailing destructive element keeps its visible empty line. -/
def assembleRun (run : List Elem) : List (List Elem) :=
  match run.getLast? with
  | Option.some e =>
    if isDestructive e then (splitRun run).dropLast else splitRun run
  | Option.none => splitRun run

/-- The number of trailing empty lines of an assembled run. -/
def trailingEmptyLines (ls : List (List Elem)) : Nat :=
  (ls.reverse.takeWhile List.isEmpty).length

theorem resolveDeltaFrom_eq_sum (base : Int) (ds : List Delta) :
    resolveDeltaFrom base ds = base + (ds.map Delta.val).sum := by
  induction ds with
  | nil => simp [resolveDeltaFrom]
  | cons d ds ih => simp [resolveDeltaFrom, Delta.fold, ih]; ring

theorem resolveToggleFrom_eq_parity (base : Bool) (ts : List Toggle) :
    resolveToggleFrom base ts = if ts.length % 2 = 0 then base else !base := by
  induction ts with
  | nil => simp [resolveToggleFrom]
  | cons t ts ih =>
    simp only [resolveToggleFrom, Toggle.fold, ih, List.length_cons]
    rcases Nat.even_or_odd ts.length with h | h
    · have h0 : ts.length % 2 = 0 := Nat.even_iff.mp h
      have h1 : (ts.length + 1) % 2 = 1 := by omega
      simp [h0, h1]
    · have h0 : ts.length % 2 = 1 := Nat.odd_iff.mp h
      have h1 : (ts.length + 1) % 2 = 0 := by omega
      simp [h0, h1]

/-- C1: folding any sequence of delta assignments with the Delta
combinator (`fold(self, outer) = outer + self`) onto an integer base
yields the base plus the sum of the deltas, independently of the order
of the assignments. -/
theorem c1_delta_fold_sum (base : Int) (ds ds' : List Delta)
    (h : List.Perm ds ds') :
    resolveDeltaFrom base ds = base + (ds.map Delta.val).sum ∧
    resolveDeltaFrom base ds' = resolveDeltaFrom base ds := by
  refine ⟨resolveDeltaFrom_eq_sum base ds, ?_⟩
  rw [resolveDeltaFrom_eq_sum base ds, resolveDeltaFrom_eq_sum base ds']
  rw [List.Perm.sum_eq (List.Perm.map Delta.val h)]

/-- Witness for C1 at base 5 and deltas [1, 2] against [2, 1]. -/
theorem c1_delta_fold_sum_witness :
    resolveDeltaFrom 5 [Delta.mk 1, Delta.mk 2] =
      5 + (([Delta.mk 1, Delta.mk 2]).map Delta.val).sum ∧
    resolveDeltaFrom 5 [Delta.mk 2, Delta.mk 1] =
      resolveDeltaFrom 5 [Delta.mk 1, Delta.mk 2] :=
  c1_delta_fold_sum 5 [Delta.mk 1, Delta.mk 2] [Delta.mk 2, Delta.mk 1]
    (by decide)

/-- C2: folding n toggle assignments with the Toggle combinator
(`fold(self, outer) = !outer`) onto a boolean base yields the base when
n is even and its negation when n is odd; the toggle is self-inverse
and the result is order-independent. -/
theorem c2_toggle_fold_parity (base : Bool) (ts ts' : List Toggle)
    (h : List.Perm ts ts') :
    resolveToggleFrom base ts = (if ts.length % 2 = 0 then base else !base) ∧
    (∀ t b, Toggle.fold t (Toggle.fold t b) = b) ∧
    resolveToggleFrom base ts' = resolveToggleFrom base ts := by
  refine ⟨resolveToggleFrom_eq_parity base ts, ?_, ?_⟩
  · intro t b
    simp [Toggle.fold]
  · rw [resolveToggleFrom_eq_parity base ts, resolveToggleFrom_eq_parity base ts',
      List.Perm.length_eq h]

/-- Witness for C2 at base true and three toggles. -/
theorem c2_toggle_fold_parity_witness :
    resolveToggleFrom true [Toggle.mk, Toggle.mk, Toggle.mk] =
      (if ([Toggle.mk, Toggle.mk, Toggle.mk] : List Toggle).length % 2 = 0
        then true else !true) ∧
    (∀ t b, Toggle.fold t (Toggle.fold t b) = b) ∧
    resolveToggleFrom true [Toggle.mk, Toggle.mk, Toggle.mk] =
      resolveToggleFrom true [Toggle.mk, Toggle.mk, Toggle.mk] :=
  c2_toggle_fold_parity true [Toggle.mk, Toggle.mk, Toggle.mk]
    [Toggle.mk, Toggle.mk, Toggle.mk] (by decide)

/-- C5: the flow-behavior classification of the space element is always
weak with fixed priority 2, and that of a line-break element is always
destructive, for every instance. -/
theorem c5_behaviour_classification :
    SpaceNode.behaviour = Behaviour.weak 2 ∧
    (∀ justify, LinebreakNode.behaviour justify = Behaviour.destructive) ∧
    Elem.behaviourOf Elem.space = Option.some (Behaviour.weak 2) ∧
    ∀ justify, Elem.behaviourOf (Elem.linebreak justify) =
      Option.some Behaviour.destructive := by
  exact ⟨rfl, fun _ => rfl, rfl, fun _ => rfl⟩

/-- C10: constructing a space element succeeds for every argument list:
all positional and named arguments are ignored and the packed space
element is returned, never an error. -/
theorem c10_space_construct_total (args : Args) :
    SpaceNode.construct args = Except.ok (Content.mk Elem.space []) :=
  rfl

/-- C7: constructing a line-break without the named argument justify
yields the justify field false; constructing it with justify true
yields the field true; both observable via field access. -/
theorem c7_linebreak_justify_field (args1 args2 : Args)
    (h1 : args1.findNamed "justify" = Option.none)
    (h2 : args2.findNamed "justify" = Option.some (Value.bool true)) :
    (∃ c, LinebreakNode.construct args1 = Except.ok c ∧
      c.field "justify" = Option.some (Value.bool false)) ∧
    (∃ c, LinebreakNode.construct args2 = Except.ok c ∧
      c.field "justify" = Option.some (Value.bool true)) := by
  constructor
  · refine ⟨Content.mk (Elem.linebreak false) [], ?_, rfl⟩
    simp [LinebreakNode.construct, h1]
  · refine ⟨Content.mk (Elem.linebreak true) [], ?_, rfl⟩
    simp [LinebreakNode.construct, h2]

/-- Witness for C7 with an empty argument list and one passing
justify true. -/
theorem c7_linebreak_justify_field_witness :
    (Args.mk [] []).findNamed "justify" = Option.none ∧
    (Args.mk [] [("justify", Value.bool true)]).findNamed "justify" =
      Option.some (Value.bool true) ∧
    ((∃ c, LinebreakNode.construct (Args.mk [] []) = Except.ok c ∧
      c.field "justify" = Option.some (Value.bool false)) ∧
    (∃ c, LinebreakNode.construct
        (Args.mk [] [("justify", Value.bool true)]) = Except.ok c ∧
      c.field "justify" = Option.some (Value.bool true))) :=
  ⟨rfl, rfl, c7_linebreak_justify_field (Args.mk [] [])
    (Args.mk [] [("justify", Value.bool true)]) rfl rfl⟩

/-- C3: the render-transform of a strong-emphasis node returns its body
with exactly one added scope folding in a font-weight delta equal to the
effective strong delta setting, whose declared default is 300; the
render-transform of an emphasis node returns its body with one added
toggled italic scope; and a strong-emphasis nested two levels deep with
the default delta resolves the font-weight delta to 600 at the
innermost body. -/
theorem c3_show_strong_emph (body : Content) (styles : List StyleEntry) :
    showStrong body styles =
      Content.mk body.elem
        (StyleEntry.delta (Delta.mk (getStrongDelta styles)) :: body.styles) ∧
    getStrongDelta [] = StrongNode.DELTA ∧
    StrongNode.DELTA = 300 ∧
    showEmph body =
      Content.mk body.elem (StyleEntry.emphToggle Toggle.mk :: body.styles) ∧
    resolveDelta (deltasOf (chainAtLeaf
      (Content.mk
        (Elem.strong (Content.mk (Elem.strong (Content.mk Elem.space [])) []))
        []) [])) = 600 := by
  refine ⟨?_, rfl, rfl, ?_, ?_⟩
  · cases body
    rfl
  · cases body
    rfl
  · simp [chainAtLeaf, showStrong, showEmph, getStrongDelta, StrongNode.DELTA,
      Content.styled, deltasOf, resolveDelta, resolveDeltaFrom, Delta.fold]

/-- C6: the case transform applied to the string ABC with lowercase mode
returns the string abc; applied to content it wraps the content in one
case-transform style scope leaving the element untouched; applied to any
other value it fails with a type-mismatch error naming the expected and
the found type, never substituting a default. -/
theorem c6_case_transform (c : Case) (ct : Content) (b : Bool) (i : Int) :
    lower (Value.str "ABC") = Except.ok (Value.str "abc") ∧
    caseFn c (Value.content ct) =
      Except.ok (Value.content
        (Content.styled ct (StyleEntry.caseStyle (Option.some c)))) ∧
    (Content.styled ct (StyleEntry.caseStyle (Option.some c))).elem = ct.elem ∧
    (Content.styled ct (StyleEntry.caseStyle (Option.some c))).styles =
      StyleEntry.caseStyle (Option.some c) :: ct.styles ∧
    caseFn c (Value.bool b) =
      Except.error ("expected string or content, found " ++
        (Value.bool b).typeName) ∧
    caseFn c (Value.int i) =
      Except.error ("expected string or content, found " ++
        (Value.int i).typeName) ∧
    caseFn c Value.none =
      Except.error ("expected string or content, found " ++
        Value.none.typeName) := by
  refine ⟨?_, rfl, ?_, ?_, rfl, rfl, rfl⟩
  · rfl
  · cases ct
    rfl
  · cases ct
    rfl

/-- C8: constructing a strong-emphasis or emphasis element without the
required positional body argument fails with an argument error naming
the missing parameter and produces no content value; with a body
supplied, construction succeeds. -/
theorem c8_body_required (args0 argsB : Args) (body : Content)
    (h0 : args0.positional = [])
    (hB : argsB.positional.head? = Option.some (Value.content body)) :
    StrongNode.construct args0 = Except.error ("missing argument: " ++ "body") ∧
    EmphNode.construct args0 = Except.error ("missing argument: " ++ "body") ∧
    StrongNode.construct argsB = Except.ok (Content.mk (Elem.strong body) []) ∧
    EmphNode.construct argsB = Except.ok (Content.mk (Elem.emph body) []) := by
  have hBpos : ∃ rest, argsB.positional = Value.content body :: rest := by
    cases hpos : argsB.positional with
    | nil => rw [hpos] at hB; simp at hB
    | cons v rest =>
      rw [hpos] at hB
      simp at hB
      exact ⟨rest, by rw [hB]⟩
  obtain ⟨rest, hrest⟩ := hBpos
  refine ⟨?_, ?_, ?_, ?_⟩
  · simp [StrongNode.construct, Args.expectContent, h0]
  · simp [EmphNode.construct, Args.expectContent, h0]
  · simp [StrongNode.construct, Args.expectContent, hrest]
  · simp [EmphNode.construct, Args.expectContent, hrest]

/-- Witness for C8 with an empty argument list and one carrying a space
content body. -/
theorem c8_body_required_witness :
    (Args.mk [] []).positional = [] ∧
    (Args.mk [Value.content (Content.mk Elem.space [])] []).positional.head? =
      Option.some (Value.content (Content.mk Elem.space [])) ∧
    (StrongNode.construct (Args.mk [] []) =
      Except.error ("missing argument: " ++ "body") ∧
    EmphNode.construct (Args.mk [] []) =
      Except.error ("missing argument: " ++ "body") ∧
    StrongNode.construct (Args.mk [Value.content (Content.mk Elem.space [])] []) =
      Except.ok (Content.mk (Elem.strong (Content.mk Elem.space [])) []) ∧
    EmphNode.construct (Args.mk [Value.content (Content.mk Elem.space [])] []) =
      Except.ok (Content.mk (Elem.emph (Content.mk Elem.space [])) [])) :=
  ⟨rfl, rfl, c8_body_required (Args.mk [] [])
    (Args.mk [Value.content (Content.mk Elem.space [])] [])
    (Content.mk Elem.space []) rfl rfl⟩

/-- C9: on every successfully constructed element, field access with a
declared field name returns the value supplied at construction (or the
declared default for an omitted optional argument), and any other name
yields none; field access reads the element without changing it. -/
theorem c9_construct_then_field (j : Bool) (body : Content) (name : String)
    (cs ce cl : Content)
    (hs : StrongNode.construct (Args.mk [Value.content body] []) = Except.ok cs)
    (he : EmphNode.construct (Args.mk [Value.content body] []) = Except.ok ce)
    (hl : LinebreakNode.construct (Args.mk [] [("justify", Value.bool j)]) =
      Except.ok cl)
    (hnj : name ≠ "justify") (hnb : name ≠ "body") :
    cs.field "body" = Option.some (Value.content body) ∧
    ce.field "body" = Option.some (Value.content body) ∧
    cl.field "justify" = Option.some (Value.bool j) ∧
    cs.field name = Option.none ∧
    ce.field name = Option.none ∧
    cl.field name = Option.none ∧
    Content.field (Content.mk Elem.space []) name = Option.none ∧
    ∀ pos c0, LinebreakNode.construct (Args.mk pos []) = Except.ok c0 →
      c0.field "justify" = Option.some (Value.bool false) := by
  have hs' : cs = Content.mk (Elem.strong body) [] := by
    simp [StrongNode.construct, Args.expectContent] at hs
    exact hs.symm
  have he' : ce = Content.mk (Elem.emph body) [] := by
    simp [EmphNode.construct, Args.expectContent] at he
    exact he.symm
  have hl' : cl = Content.mk (Elem.linebreak j) [] := by
    simp [LinebreakNode.construct, Args.findNamed] at hl
    exact hl.symm
  subst hs'
  subst he'
  subst hl'
  refine ⟨rfl, rfl, rfl, ?_, ?_, ?_, ?_, ?_⟩
  · simp [Content.field, Content.elem, Elem.field, hnb]
  · simp [Content.field, Content.elem, Elem.field, hnb]
  · simp [Content.field, Content.elem, Elem.field, hnj]
  · simp [Content.field, Content.elem, Elem.field]
  · intro pos c0 h
    simp [LinebreakNode.construct, Args.findNamed] at h
    rw [h.symm]
    rfl

/-- Witness for C9 with a space body, justify true and the undeclared
field name size. -/
theorem c9_construct_then_field_witness :
    (StrongNode.construct
      (Args.mk [Value.content (Content.mk Elem.space [])] []) =
      Except.ok (Content.mk (Elem.strong (Content.mk Elem.space [])) [])) ∧
    (("size" : String) ≠ "justify") ∧
    ((Content.mk (Elem.strong (Content.mk Elem.space [])) []).field "body" =
      Option.some (Value.content (Content.mk Elem.space [])) ∧
    (Content.mk (Elem.emph (Content.mk Elem.space [])) []).field "body" =
      Option.some (Value.content (Content.mk Elem.space [])) ∧
    (Content.mk (Elem.linebreak true) []).field "justify" =
      Option.some (Value.bool true) ∧
    (Content.mk (Elem.strong (Content.mk Elem.space [])) []).field "size" =
      Option.none ∧
    (Content.mk (Elem.emph (Content.mk Elem.space [])) []).field "size" =
      Option.none ∧
    (Content.mk (Elem.linebreak true) []).field "size" = Option.none ∧
    Content.field (Content.mk Elem.space []) "size" = Option.none ∧
    ∀ pos c0, LinebreakNode.construct (Args.mk pos []) = Except.ok c0 →
      c0.field "justify" = Option.some (Value.bool false)) :=
  ⟨rfl, by decide,
    c9_construct_then_field true (Content.mk Elem.space []) "size"
      (Content.mk (Elem.strong (Content.mk Elem.space [])) [])
      (Content.mk (Elem.emph (Content.mk Elem.space [])) [])
      (Content.mk (Elem.linebreak true) [])
      rfl rfl rfl (by decide) (by decide)⟩

theorem splitRun_ne_nil (xs : List Elem) : splitRun xs ≠ [] := by
  induction xs with
  | nil => simp [splitRun]
  | cons x xs ih =>
    by_cases hx : isDestructive x
    · simp [splitRun, hx]
    · simp only [splitRun, hx]
      cases h : splitRun xs <;> simp

theorem splitRun_concat_destructive (xs : List Elem) (d : Elem)
    (hd : isDestructive d = true) :
    splitRun (xs ++ [d]) = splitRun xs ++ [[]] := by
  induction xs with
  | nil => simp [splitRun, hd]
  | cons x xs ih =>
    by_cases hx : isDestructive x
    · simp [splitRun, hx, ih]
    · cases h : splitRun xs with
      | nil => exact absurd h (splitRun_ne_nil xs)
      | cons l ls => simp [splitRun, hx, ih, h]

theorem splitRun_concat_nondestructive (xs : List Elem) (e : Elem)
    (he : isDestructive e = false) :
    ∃ ls l, splitRun xs = ls ++ [l] ∧
      splitRun (xs ++ [e]) = ls ++ [l ++ [e]] := by
  induction xs with
  | nil =>
    refine ⟨[], [], rfl, ?_⟩
    simp [splitRun, he]
  | cons x xs ih =>
    obtain ⟨ls, l, h1, h2⟩ := ih
    by_cases hx : isDestructive x
    · refine ⟨[] :: ls, l, ?_, ?_⟩
      · simp [splitRun, hx, h1]
      · simp [splitRun, hx, h2]
    · cases ls with
      | nil =>
        refine ⟨[], x :: l, ?_, ?_⟩
        · simp only [List.nil_append] at h1
          simp [splitRun, hx, h1]
        · simp only [List.nil_append] at h2
          simp [splitRun, hx, h2]
      | cons l0 ls0 =>
        refine ⟨(x :: l0) :: ls0, l, ?_, ?_⟩
        · simp [splitRun, hx, h1]
        · simp [splitRun, hx, h2]

theorem splitRun_length (run : List Elem) :
    (splitRun run).length = run.countP isDestructive + 1 := by
  induction run with
  | nil => simp [splitRun]
  | cons x xs ih =>
    by_cases hx : isDestructive x
    · simp [splitRun, hx, List.countP_cons, ih]
    · cases h : splitRun xs with
      | nil => exact absurd h (splitRun_ne_nil xs)
      | cons l ls =>
        rw [h] at ih
        simp only [List.length_cons] at ih
        simp [splitRun, hx, List.countP_cons, h, ih]

theorem trailingEmptyLines_concat_ne (ls : List (List Elem)) (l : List Elem)
    (h : l ≠ []) : trailingEmptyLines (ls ++ [l]) = 0 := by
  simp [trailingEmptyLines, List.takeWhile_cons, h]

theorem trailingEmptyLines_concat_empty (ls : List (List Elem))
    (l : List Elem) (h : l ≠ []) :
    trailingEmptyLines ((ls ++ [l]) ++ [[]]) = 1 := by
  simp [trailingEmptyLines, List.takeWhile_cons, h]

/-- C4: a flowing run ending in exactly one destructive element yields
no trailing empty line because the single final break is absorbed, while
a run ending in two consecutive destructive elements yields exactly one
trailing empty line; destructive elements are never collapsed against
each other, so the run always splits into one line more than it has
destructive elements. -/
theorem c4_trailing_destructive (ys : List Elem) (e brk : Elem)
    (he : isDestructive e = false) (hb : isDestructive brk = true) :
    trailingEmptyLines (assembleRun (ys ++ [e, brk])) = 0 ∧
    trailingEmptyLines (assembleRun (ys ++ [e, brk, brk])) = 1 ∧
    ∀ run, (splitRun run).length = run.countP isDestructive + 1 := by
  obtain ⟨ls, l, h1, h2⟩ := splitRun_concat_nondestructive ys e he
  refine ⟨?_, ?_, splitRun_length⟩
  · have hrw : ys ++ [e, brk] = (ys ++ [e]) ++ [brk] := by simp
    rw [hrw]
    unfold assembleRun
    rw [List.getLast?_concat]
    simp only [hb, if_pos]
    rw [splitRun_concat_destructive _ _ hb, List.dropLast_concat, h2]
    exact trailingEmptyLines_concat_ne ls (l ++ [e]) (by simp)
  · have hrw : ys ++ [e, brk, brk] = ((ys ++ [e]) ++ [brk]) ++ [brk] := by simp
    rw [hrw]
    unfold assembleRun
    rw [List.getLast?_concat]
    simp only [hb, if_pos]
    rw [splitRun_concat_destructive _ _ hb, List.dropLast_concat,
      splitRun_concat_destructive _ _ hb, h2]
    exact trailingEmptyLines_concat_empty ls (l ++ [e]) (by simp)

/-- Witness for C4 with the run space, linebreak and the run with the
linebreak doubled. -/
theorem c4_trailing_destructive_witness :
    isDestructive Elem.space = false ∧
    isDestructive (Elem.linebreak false) = true ∧
    (trailingEmptyLines
      (assembleRun ([] ++ [Elem.space, Elem.linebreak false])) = 0 ∧
    trailingEmptyLines
      (assembleRun
        ([] ++ [Elem.space, Elem.linebreak false, Elem.linebreak false])) = 1 ∧
    ∀ run, (splitRun run).length = run.countP isDestructive + 1) :=
  ⟨rfl, rfl,
    c4_trailing_destructive [] Elem.space (Elem.linebreak false) rfl rfl⟩

/-- Witness for C3 at a space body and the empty style chain. -/
theorem c3_show_strong_emph_witness :
    showStrong (Content.mk Elem.space []) [] =
      Content.mk (Content.mk Elem.space []).elem
        (StyleEntry.delta (Delta.mk (getStrongDelta [])) ::
          (Content.mk Elem.space []).styles) ∧
    getStrongDelta [] = StrongNode.DELTA ∧
    StrongNode.DELTA = 300 ∧
    showEmph (Content.mk Elem.space []) =
      Content.mk (Content.mk Elem.space []).elem
        (StyleEntry.emphToggle Toggle.mk :: (Content.mk Elem.space []).styles) ∧
    resolveDelta (deltasOf (chainAtLeaf
      (Content.mk
        (Elem.strong (Content.mk (Elem.strong (Content.mk Elem.space [])) []))
        []) [])) = 600 :=
  c3_show_strong_emph (Content.mk Elem.space []) []

/-- Witness for C6 at lowercase mode, a space content, the boolean true
and the integer 7. -/
theorem c6_case_transform_witness :
    lower (Value.str "ABC") = Except.ok (Value.str "abc") ∧
    caseFn Case.lower (Value.content (Content.mk Elem.space [])) =
      Except.ok (Value.content
        (Content.styled (Content.mk Elem.space [])
          (StyleEntry.caseStyle (Option.some Case.lower)))) ∧
    (Content.styled (Content.mk Elem.space [])
      (StyleEntry.caseStyle (Option.some Case.lower))).elem =
      (Content.mk Elem.space []).elem ∧
    (Content.styled (Content.mk Elem.space [])
      (StyleEntry.caseStyle (Option.some Case.lower))).styles =
      StyleEntry.caseStyle (Option.some Case.lower) ::
        (Content.mk Elem.space []).styles ∧
    caseFn Case.lower (Value.bool true) =
      Except.error ("expected string or content, found " ++
        (Value.bool true).typeName) ∧
    caseFn Case.lower (Value.int 7) =
      Except.error ("expected string or content, found " ++
        (Value.int 7).typeName) ∧
    caseFn Case.lower Value.none =
      Except.error ("expected string or content, found " ++
        Value.none.typeName) :=
  c6_case_transform Case.lower (Content.mk Elem.space []) true 7

/-- Witness for C10 at an argument list holding both positional and
named arguments. -/
theorem c10_space_construct_total_witness :
    SpaceNode.construct
      (Args.mk [Value.int 1] [("justify", Value.bool true)]) =
      Except.ok (Content.mk Elem.space []) :=
  c10_space_construct_total
    (Args.mk [Value.int 1] [("justify", Value.bool true)])
